import Mathlib

/-!
Verification of the PDF2MindMap pipeline (src/app.py).

The Python strings of the program are modelled as `List Char`; the helper
functions below reproduce the exact Python primitives the program uses
(`str.strip`, `str.join`, `str.split("\n")`, `str.replace`).  Fallible
steps return `Option`; the external inference service is passed in as a
function from the submitted prompt to an optional reply (`none` models a
raised call or a reply with no text).
-/

/-- Python strings are modelled as lists of characters. -/
abbrev Str := List Char

/-- The whitespace characters recognised by Python `str.strip()` (ASCII part). -/
def pyWs (c : Char) : Bool :=
  c = ' ' || c = '\t' || c = '\n' || c = '\r' || c = '\x0b' || c = '\x0c'

/-- Remove trailing characters satisfying `pyWs` (the right half of `str.strip`). -/
def trimRight : Str → Str
  | [] => []
  | c :: rest =>
    match trimRight rest with
    | [] => if pyWs c then [] else [c]
    | x :: xs => c :: x :: xs

/-- Python `s.strip()`: drop leading and trailing whitespace. -/
def pyStrip (l : Str) : Str := trimRight (l.dropWhile pyWs)

/-- Python `sep.join(xs)`. -/
def pyJoin (sep : Str) : List Str → Str
  | [] => []
  | [x] => x
  | x :: y :: rest => x ++ sep ++ pyJoin sep (y :: rest)

/-- Python `s.split("\n")`: split at every newline, keeping empty segments. -/
def splitNl : Str → List Str
  | [] => [[]]
  | c :: rest =>
    if c = '\n' then [] :: splitNl rest
    else
      match splitNl rest with
      | [] => [[c]]
      | r :: rs => (c :: r) :: rs

/-! Mindmap renderer (`create_markmap_html` in src/app.py).  The code runs
`markdown_content.replace* \x60 -> \\\x60` then `replace ${ -> \\${` and pastes
the result between the backticks of a JS template literal inside a fixed HTML
shell. -/

/-- First `str.replace` of `create_markmap_html`: every backtick becomes
backslash-backtick. -/
def escBacktick : Str → Str
  | [] => []
  | c :: rest =>
    if c = '\x60' then '\\' :: '\x60' :: escBacktick rest
    else c :: escBacktick rest

/-- Second `str.replace` of `create_markmap_html`: every (left-to-right,
non-overlapping) occurrence of the two-character sequence dollar-brace gains
a leading backslash. -/
def escDollarBrace : Str → Str
  | [] => []
  | [c] => [c]
  | c :: d :: rest =>
    if c = '$' ∧ d = '\x7b' then '\\' :: '$' :: '\x7b' :: escDollarBrace rest
    else c :: escDollarBrace (d :: rest)

/-- Single left-to-right escaping pass following the spec words: every
backtick and every dollar-brace sequence is replaced by its backslash-escaped
form exactly once, and every other character is copied unchanged. -/
def escapeSpec : Str → Str
  | [] => []
  | [c] => if c = '\x60' then ['\\', '\x60'] else [c]
  | c :: d :: rest =>
    if c = '\x60' then '\\' :: '\x60' :: escapeSpec (d :: rest)
    else if c = '$' ∧ d = '\x7b' then '\\' :: '$' :: '\x7b' :: escapeSpec rest
    else c :: escapeSpec (d :: rest)

/-- Scanner over the body of a JS template literal: `true` iff the body has no
unescaped backtick, no unescaped dollar-brace interpolation start, and no
dangling final backslash (which would escape the closing delimiter). -/
def templateSafe : Str → Bool
  | [] => true
  | [c] => !(c = '\\' || c = '\x60')
  | c :: d :: rest =>
    if c = '\\' then templateSafe rest
    else if c = '\x60' then false
    else if c = '$' ∧ d = '\x7b' then false
    else templateSafe (d :: rest)

/-- HTML document text preceding the embedded markdown in `create_markmap_html`
(braces, apostrophes and backticks written with hex escapes). -/
def markmapHtmlBefore : String :=
  "\n    <!DOCTYPE html>\n    <html>\n    <head>\n        <meta charset=\"UTF-8\">\n        <style>\n            #mindmap \x7b\n                width: 100%;\n                height: 600px;\n                margin: 0;\n                padding: 0;\n            \x7d\n        </style>\n        <script src=\"https://cdn.jsdelivr.net/npm/d3@6\"></script>\n        <script src=\"https://cdn.jsdelivr.net/npm/markmap-view\"></script>\n        <script src=\"https://cdn.jsdelivr.net/npm/markmap-lib@0.14.3/dist/browser/index.min.js\"></script>\n    </head>\n    <body>\n        <svg id=\"mindmap\"></svg>\n        <script>\n            window.onload = async () => \x7b\n                try \x7b\n                    const markdown = \x60"

/-- HTML document text following the embedded markdown in `create_markmap_html`. -/
def markmapHtmlAfter : String :=
  "\x60;\n                    const transformer = new markmap.Transformer();\n                    const \x7broot\x7d = transformer.transform(markdown);\n                    const mm = new markmap.Markmap(document.querySelector(\x27#mindmap\x27), \x7b\n                        maxWidth: 300,\n                        color: (node) => \x7b\n                            const level = node.depth;\n                            return [\x27#2196f3\x27, \x27#4caf50\x27, \x27#ff9800\x27, \x27#f44336\x27][level % 4];\n                        \x7d,\n                        paddingX: 16,\n                        autoFit: true,\n                        initialExpandLevel: 2,\n                        duration: 500,\n                    \x7d);\n                    mm.setData(root);\n                    mm.fit();\n                \x7d catch (error) \x7b\n                    console.error(\x27Error rendering mindmap:\x27, error);\n                    document.body.innerHTML = \x27<p style=\"color: red;\">Error rendering mindmap. Please check the console for details.</p>\x27;\n                \x7d\n            \x7d;\n        </script>\n    </body>\n    </html>\n    "

/-- Model of `create_markmap_html`: escape backticks, then dollar-brace
sequences, and embed the result in the fixed HTML shell. -/
def create_markmap_html (markdown_content : Str) : Str :=
  markmapHtmlBefore.data ++ escDollarBrace (escBacktick markdown_content)
    ++ markmapHtmlAfter.data

/-! Document loader (`extract_text_from_pdf` in src/app.py). -/

/-- One page of the uploaded PDF: `text` models `page.extract_text()` and
`ocr` models `pytesseract.image_to_string` on the rasterized page. -/
structure PdfPage where
  text : Str
  ocr : Str
deriving DecidableEq, Repr

/-- Observable outcome of one call to `extract_text_from_pdf`: the returned
value (`none` = extraction failed), whether the OCR path ran, whether the
temporary file was removed, and whether an exception escaped the call. -/
structure ExtractOutcome where
  result : Option Str
  ocrInvoked : Bool
  tempFileDeleted : Bool
  raised : Bool
deriving DecidableEq, Repr

/-- The joined embedded text:
`"\n".join(page.extract_text() for page in pdf_reader.pages if page.extract_text())`
(the generator keeps only truthy, i.e. non-empty, page texts). -/
def joinedPageText (pages : List PdfPage) : Str :=
  pyJoin ['\n'] ((pages.map PdfPage.text).filter (fun t => !t.isEmpty))

/-- The accumulated OCR text: `ocr_text += pytesseract.image_to_string(image) + "\n"`
over the pages in order. -/
def ocrConcat (pages : List PdfPage) : Str :=
  pages.foldl (fun acc p => acc ++ p.ocr ++ ['\n']) []

/-- Model of `extract_text_from_pdf`.  `readRaises` models `pdf_file.read()`
raising inside the `with` block: the temporary file already exists on disk but
`temp_file_path` is never assigned, so the `finally` block raises `NameError`
at `os.path.exists(temp_file_path)` and the file is not removed.
`parseRaises` models an exception after `temp_file_path` is assigned (e.g. in
`PdfReader`): the `except` clause returns `None` and `finally` removes the
file.  Otherwise the code joins the truthy page texts, falls back to OCR when
the joined text is blank after stripping, and returns the stripped result. -/
def extract_text_from_pdf (readRaises parseRaises : Bool) (pages : List PdfPage) :
    ExtractOutcome :=
  if readRaises then ⟨none, false, false, true⟩
  else if parseRaises then ⟨none, false, true, false⟩
  else
    let text := joinedPageText pages
    if (pyStrip text).isEmpty then
      let ocr_text := ocrConcat pages
      if (pyStrip ocr_text).isEmpty then ⟨none, true, true, false⟩
      else ⟨some (pyStrip ocr_text), true, true, false⟩
    else ⟨some (pyStrip text), false, true, false⟩

/-! Outline generator (`create_mindmap_markdown` in src/app.py). -/

/-- The character cap (`max_chars` in the source). -/
def max_chars : Nat := 30000

/-- The ellipsis marker appended after truncation. -/
def ellipsisMark : Str := ['.', '.', '.']

/-- Text of the outline prompt template before the `text` slot. -/
def outlinePromptLead : String :=
  "\n        Create a hierarchical markdown mindmap from the following text. \n        Use proper markdown heading syntax (# for main topics, ## for subtopics, ### for details).\n        Focus on the main concepts and their relationships.\n        Include relevant details and connections between ideas.\n        Keep the structure clean and organized.\n        \n        Format the output exactly like this example:\n        # Main Topic\n        ## Subtopic 1\n        ### Detail 1\n        - Key point 1\n        - Key point 2\n        ### Detail 2\n        ## Subtopic 2\n        ### Detail 3\n        ### Detail 4\n        \n        Text to analyze: "

/-- Text of the outline prompt template after the `text` slot. -/
def outlinePromptTail : String :=
  "\n        \n        Respond only with the markdown mindmap, no additional text.\n        "

/-- `prompt.format(text=t)` for the outline prompt. -/
def outline_prompt (t : Str) : Str :=
  outlinePromptLead.data ++ t ++ outlinePromptTail.data

/-- Observable outcome of `create_mindmap_markdown`: the text embedded in the
prompt (after possible truncation), whether the truncation warning was
emitted, and the returned value (`none` = `GenerationFailed`). -/
structure OutlineTrace where
  submitted : Str
  truncWarned : Bool
  result : Option Str
deriving DecidableEq, Repr

/-- The truncation step of `create_mindmap_markdown`:
`text[:max_chars] + "..."` when the length exceeds the cap, else the text
unchanged. -/
def truncatedText (text : Str) : Str :=
  if max_chars < text.length then text.take max_chars ++ ellipsisMark else text

/-- Model of `create_mindmap_markdown`.  `gen` is the inference service:
prompt to optional reply; `none` models a raised call or a reply whose
`.text` is absent.  A blank reply (empty after stripping) also fails;
otherwise the stripped reply is returned unvalidated. -/
def create_mindmap_markdown (gen : Str → Option Str) (text : Str) : OutlineTrace :=
  match gen (outline_prompt (truncatedText text)) with
  | none => ⟨truncatedText text, decide (max_chars < text.length), none⟩
  | some r => ⟨truncatedText text, decide (max_chars < text.length),
      if (pyStrip r).isEmpty then none else some (pyStrip r)⟩

/-! Question generator (`generate_questions_from_text` in src/app.py). -/

/-- Text of the questions prompt template before the `text` slot. -/
def questionsPromptLead : String :=
  "\n        Based on the following text, generate a list of questions that test comprehension and understanding of the content. \n        Provide the questions in a numbered list format.\n\n        Text:\n        "

/-- Text of the questions prompt template after the `text` slot. -/
def questionsPromptTail : String :=
  "\n\n        Respond only with the list of questions.\n        "

/-- `prompt.format(text=text)` for the questions prompt. -/
def questions_prompt (t : Str) : Str :=
  questionsPromptLead.data ++ t ++ questionsPromptTail.data

/-- Model of `generate_questions_from_text`: on a usable reply it returns
`response.text.strip().split("\n")`; a missing or blank reply yields `None`. -/
def generate_questions_from_text (gen : Str → Option Str) (text : Str) :
    Option (List Str) :=
  match gen (questions_prompt text) with
  | none => none
  | some r => if (pyStrip r).isEmpty then none else some (splitNl (pyStrip r))

/-! The `main` flow. -/

/-- `configure_genai` returns `False` iff the API key is absent (the
`genai.configure` call itself is assumed not to raise). -/
def configure_genai (apiKeyPresent : Bool) : Bool := apiKeyPresent

/-- Which stages of `main` ran and what extraction produced. -/
structure PipelineTrace where
  extractionCalled : Bool
  extracted : Option Str
  outlineCalled : Bool
  questionsCalled : Bool
deriving DecidableEq, Repr

/-- Model of `main`: if `configure_genai` fails, `main` returns before the
file uploader is rendered; otherwise, with an uploaded file, extraction runs;
only a truthy extraction result reaches `create_mindmap_markdown`, and
`generate_questions_from_text` runs only when the outline succeeded (the tabs
exist) and the button was clicked. -/
def main_run (apiKeyPresent : Bool) (uploaded : Option (List PdfPage))
    (readRaises parseRaises : Bool) (outlineGen : Str → Option Str)
    (questionsClicked : Bool) : PipelineTrace :=
  if !configure_genai apiKeyPresent then ⟨false, none, false, false⟩
  else
    match uploaded with
    | none => ⟨false, none, false, false⟩
    | some pages =>
      let eo := extract_text_from_pdf readRaises parseRaises pages
      match eo.result with
      | none => ⟨true, none, false, false⟩
      | some t =>
        if t.isEmpty then ⟨true, some t, false, false⟩
        else
          match (create_mindmap_markdown outlineGen t).result with
          | none => ⟨true, some t, true, false⟩
          | some m =>
            if m.isEmpty then ⟨true, some t, true, false⟩
            else ⟨true, some t, true, questionsClicked⟩

/-- An inference service that never produces a reply. -/
def noReply : Str → Option Str := fun _ => none

/-- An inference service that always produces the same reply. -/
def constGen (r : Option Str) : Str → Option Str := fun _ => r

/-- The reply used by the spec example: the characters of
`1. Why?` newline `2. How?` newline. -/
def exampleReply : Str :=
  ['1', '.', ' ', 'W', 'h', 'y', '?', '\n', '2', '.', ' ', 'H', 'o', 'w', '?', '\n']

/-! Basic lemmas about the string model. -/

lemma dropWhile_dropWhile_self (p : Char → Bool) (l : Str) :
    (l.dropWhile p).dropWhile p = l.dropWhile p := by
  induction l with
  | nil => rfl
  | cons a l ih =>
    by_cases h : p a = true <;> simp [List.dropWhile_cons, h, ih]

lemma all_dropWhile (p : Char → Bool) (l : Str) :
    (l.dropWhile p).all p = l.all p := by
  induction l with
  | nil => rfl
  | cons a l ih =>
    by_cases h : p a = true <;> simp [List.dropWhile_cons, h, ih]

lemma trimRight_eq_nil_iff (l : Str) : trimRight l = [] ↔ l.all pyWs = true := by
  induction l with
  | nil => simp [trimRight]
  | cons a l ih =>
    cases h : trimRight l with
    | nil =>
      have hall : l.all pyWs = true := ih.mp h
      by_cases ha : pyWs a = true <;> simp [trimRight, h, ha, hall]
    | cons x xs =>
      have hall : ¬ l.all pyWs = true := fun hl => by
        rw [ih.mpr hl] at h; exact List.noConfusion h
      simp [trimRight, h, hall]

lemma pyStrip_eq_nil_iff (l : Str) : pyStrip l = [] ↔ l.all pyWs = true := by
  rw [pyStrip, trimRight_eq_nil_iff, all_dropWhile]

lemma dropWhile_trimRight_self (m : Str) (h : m.dropWhile pyWs = m) :
    (trimRight m).dropWhile pyWs = trimRight m := by
  cases m with
  | nil => rfl
  | cons c rest =>
    have hc : pyWs c = false := by
      by_cases hc : pyWs c = true
      · exfalso
        rw [List.dropWhile_cons_of_pos hc] at h
        have hlen : (rest.dropWhile pyWs).length ≤ rest.length :=
          (List.dropWhile_sublist pyWs).length_le
        rw [h] at hlen
        simp at hlen
      · simpa using hc
    cases hr : trimRight rest with
    | nil => by_cases hcw : pyWs c = true <;> simp [trimRight, hr, hc, List.dropWhile_cons]
    | cons x xs => simp [trimRight, hr, hc, List.dropWhile_cons]

lemma trimRight_trimRight (l : Str) : trimRight (trimRight l) = trimRight l := by
  induction l with
  | nil => rfl
  | cons c rest ih =>
    cases hr : trimRight rest with
    | nil =>
      by_cases hc : pyWs c = true
      · simp [trimRight, hr, hc]
      · simp [trimRight, hr, hc]
    | cons x xs =>
      have hx : trimRight (x :: xs) = x :: xs := by rw [← hr]; exact ih
      have h1 : trimRight (c :: rest) = c :: x :: xs := by simp [trimRight, hr]
      rw [h1]
      show (match trimRight (x :: xs) with
            | [] => if pyWs c = true then [] else [c]
            | y :: ys => c :: y :: ys) = c :: x :: xs
      rw [hx]

lemma pyStrip_idem (l : Str) : pyStrip (pyStrip l) = pyStrip l := by
  have h1 : (l.dropWhile pyWs).dropWhile pyWs = l.dropWhile pyWs :=
    dropWhile_dropWhile_self pyWs l
  rw [pyStrip, pyStrip, dropWhile_trimRight_self _ h1, trimRight_trimRight]

lemma trimRight_head? (l : Str) (c : Char) (h : (trimRight l).head? = some c) :
    l.head? = some c := by
  cases l with
  | nil => simp [trimRight] at h
  | cons a rest =>
    cases hr : trimRight rest with
    | nil =>
      rw [trimRight, hr] at h
      by_cases ha : pyWs a = true
      · simp [ha] at h
      · simp [ha] at h
        simp [h]
    | cons x xs =>
      rw [trimRight, hr] at h
      simp at h
      simp [h]

lemma head?_dropWhile (p : Char → Bool) (l : Str) (c : Char)
    (h : (l.dropWhile p).head? = some c) : p c = false := by
  induction l with
  | nil => simp [List.dropWhile] at h
  | cons a rest ih =>
    rw [List.dropWhile_cons] at h
    by_cases ha : p a = true
    · simp [ha] at h; exact ih h
    · simp [ha] at h
      subst h
      simpa using ha

lemma pyStrip_head? (l : Str) (c : Char) (h : (pyStrip l).head? = some c) :
    pyWs c = false :=
  head?_dropWhile pyWs l c (trimRight_head? _ c h)

lemma trimRight_getLast? (l : Str) : ∀ c, (trimRight l).getLast? = some c → pyWs c = false := by
  induction l with
  | nil => intro c h; simp [trimRight] at h
  | cons a rest ih =>
    intro c h
    cases hr : trimRight rest with
    | nil =>
      rw [trimRight, hr] at h
      by_cases ha : pyWs a = true
      · simp [ha] at h
      · simp [ha] at h
        subst h
        simpa using ha
    | cons x xs =>
      rw [trimRight, hr] at h
      rw [List.getLast?_cons_cons] at h
      exact ih c (hr ▸ h)

lemma pyStrip_getLast? (l : Str) (c : Char) (h : (pyStrip l).getLast? = some c) :
    pyWs c = false :=
  trimRight_getLast? _ c h

lemma getLast?_isSome_of_ne_nil (t : Str) (h : t ≠ []) : ∃ c, t.getLast? = some c := by
  induction t with
  | nil => exact absurd rfl h
  | cons a rest ih =>
    cases rest with
    | nil => exact ⟨a, rfl⟩
    | cons b rest' =>
      obtain ⟨c, hc⟩ := ih (by simp)
      exact ⟨c, by rw [List.getLast?_cons_cons]; exact hc⟩

/-! Lemmas about `splitNl`. -/

lemma splitNl_ne_nil (l : Str) : splitNl l ≠ [] := by
  cases l with
  | nil => simp [splitNl]
  | cons c rest =>
    by_cases hc : c = '\n'
    · simp [splitNl, hc]
    · cases h : splitNl rest <;> simp [splitNl, hc, h]

lemma splitNl_no_newline (l : Str) : ∀ e ∈ splitNl l, '\n' ∉ e := by
  induction l with
  | nil => intro e he; simp [splitNl] at he; simp [he]
  | cons c rest ih =>
    intro e he
    by_cases hc : c = '\n'
    · rw [splitNl, if_pos hc] at he
      rcases List.mem_cons.mp he with h | h
      · simp [h]
      · exact ih e h
    · rw [splitNl, if_neg hc] at he
      cases h : splitNl rest with
      | nil => exact absurd h (splitNl_ne_nil rest)
      | cons r rs =>
        rw [h] at he
        rcases List.mem_cons.mp he with h1 | h1
        · subst h1
          intro hmem
          rcases List.mem_cons.mp hmem with h2 | h2
          · exact hc h2.symm
          · exact ih r (by rw [h]; exact List.mem_cons_self r rs) h2
        · exact ih e (by rw [h]; exact List.mem_cons_of_mem r h1)

lemma splitNl_head (l : Str) (c : Char) (h : l.head? = some c) (hc : c ≠ '\n') :
    ∃ e es, splitNl l = e :: es ∧ c ∈ e := by
  cases l with
  | nil => simp at h
  | cons a rest =>
    have ha : a = c := by simpa using h
    have ha' : a ≠ '\n' := by rw [ha]; exact hc
    rw [splitNl, if_neg ha']
    cases hs : splitNl rest with
    | nil => exact ⟨[a], [], rfl, by simp [ha]⟩
    | cons r rs => exact ⟨a :: r, rs, rfl, by simp [ha]⟩

lemma splitNl_getLast (l : Str) : ∀ c, l.getLast? = some c → c ≠ '\n' →
    ∃ e, (splitNl l).getLast? = some e ∧ c ∈ e := by
  induction l with
  | nil => intro c h _; simp at h
  | cons a rest ih =>
    intro c h hc
    cases rest with
    | nil =>
      have ha : a = c := by simpa using h
      have ha' : a ≠ '\n' := by rw [ha]; exact hc
      rw [splitNl, if_neg ha']
      exact ⟨[a], by simp [splitNl], by simp [ha]⟩
    | cons b rest' =>
      rw [List.getLast?_cons_cons] at h
      obtain ⟨e, he, hce⟩ := ih c h hc
      by_cases ha : a = '\n'
      · rw [splitNl, if_pos ha]
        cases hs : splitNl (b :: rest') with
        | nil => exact absurd hs (splitNl_ne_nil _)
        | cons r rs =>
          refine ⟨e, ?_, hce⟩
          rw [hs] at he
          rw [List.getLast?_cons_cons]
          exact he
      · rw [splitNl, if_neg ha]
        cases hs : splitNl (b :: rest') with
        | nil => exact absurd hs (splitNl_ne_nil _)
        | cons r rs =>
          rw [hs] at he
          cases rs with
          | nil =>
            have her : e = r := by
              have := he
              simp at this
              exact this.symm
            exact ⟨a :: r, by simp, List.mem_cons_of_mem a (her ▸ hce)⟩
          | cons y ys =>
            rw [List.getLast?_cons_cons] at he
            exact ⟨e, by rw [List.getLast?_cons_cons]; exact he, hce⟩

/-- Two-step structural induction for character lists. -/
theorem str_two_step (P : Str → Prop) (h0 : P []) (h1 : ∀ c, P [c])
    (h2 : ∀ c d rest, P (d :: rest) → P rest → P (c :: d :: rest)) : ∀ l, P l
  | [] => h0
  | [c] => h1 c
  | c :: d :: rest =>
    h2 c d rest (str_two_step P h0 h1 h2 (d :: rest)) (str_two_step P h0 h1 h2 rest)

lemma escDollarBrace_cons_cons_of_ne (c d : Char) (l : Str)
    (h : ¬(c = '$' ∧ d = '\x7b')) :
    escDollarBrace (c :: d :: l) = c :: escDollarBrace (d :: l) := by
  simp [escDollarBrace, h]

lemma escBacktick_head (d : Char) (rest : Str) :
    ∃ x xs, escBacktick (d :: rest) = x :: xs ∧ (x = d ∨ x = '\\') := by
  by_cases hd : d = '\x60'
  · exact ⟨'\\', '\x60' :: escBacktick rest, by simp [escBacktick, hd], Or.inr rfl⟩
  · exact ⟨d, escBacktick rest, by simp [escBacktick, hd], Or.inl rfl⟩

lemma escComposed : ∀ l : Str, escDollarBrace (escBacktick l) = escapeSpec l := by
  intro l
  induction l using str_two_step with
  | h0 => rfl
  | h1 c =>
    by_cases hc : c = '\x60'
    · subst hc; decide
    · simp [escBacktick, escDollarBrace, escapeSpec, hc]
  | h2 c d rest ih1 ih2 =>
    by_cases hc : c = '\x60'
    · subst hc
      rw [show escBacktick ('\x60' :: d :: rest)
            = '\\' :: '\x60' :: escBacktick (d :: rest) from by simp [escBacktick]]
      rw [escDollarBrace_cons_cons_of_ne '\\' '\x60' _ (by decide)]
      obtain ⟨x, xs, hx, hxor⟩ := escBacktick_head d rest
      have hne : ¬('\x60' = '$' ∧ x = '\x7b') := fun hh => by
        exact absurd hh.1 (by decide)
      rw [hx, escDollarBrace_cons_cons_of_ne '\x60' x _ hne, ← hx, ih1]
      rw [show escapeSpec ('\x60' :: d :: rest)
            = '\\' :: '\x60' :: escapeSpec (d :: rest) from by simp [escapeSpec]]
    · by_cases hcd : c = '$' ∧ d = '\x7b'
      · obtain ⟨hc1, hd1⟩ := hcd
        subst hc1; subst hd1
        rw [show escBacktick ('$' :: '\x7b' :: rest)
              = '$' :: '\x7b' :: escBacktick rest from by simp [escBacktick]]
        rw [show escDollarBrace ('$' :: '\x7b' :: escBacktick rest)
              = '\\' :: '$' :: '\x7b' :: escDollarBrace (escBacktick rest) from by
            simp [escDollarBrace]]
        rw [ih2]
        rw [show escapeSpec ('$' :: '\x7b' :: rest)
              = '\\' :: '$' :: '\x7b' :: escapeSpec rest from by simp [escapeSpec]]
      · rw [show escBacktick (c :: d :: rest) = c :: escBacktick (d :: rest) from by
            simp [escBacktick, hc]]
        obtain ⟨x, xs, hx, hxor⟩ := escBacktick_head d rest
        have hne : ¬(c = '$' ∧ x = '\x7b') := by
          rintro ⟨hc2, hx2⟩
          rcases hxor with h | h
          · exact hcd ⟨hc2, by rw [← h]; exact hx2⟩
          · rw [h] at hx2; exact absurd hx2 (by decide)
        rw [hx, escDollarBrace_cons_cons_of_ne c x _ hne, ← hx, ih1]
        rw [show escapeSpec (c :: d :: rest) = c :: escapeSpec (d :: rest) from by
            simp [escapeSpec, hc, hcd]]

lemma templateSafe_escape (y : Char) (X : Str) :
    templateSafe ('\\' :: y :: X) = templateSafe X := by
  simp [templateSafe]

lemma templateSafe_cons_benign (c : Char) (l : Str) (h1 : c ≠ '\\')
    (h2 : c ≠ '\x60') (h3 : c ≠ '$') : templateSafe (c :: l) = templateSafe l := by
  cases l with
  | nil => simp [templateSafe, h1, h2]
  | cons d rest =>
    have h4 : ¬(c = '$' ∧ d = '\x7b') := fun hh => h3 hh.1
    simp [templateSafe, h1, h2, h4]

lemma templateSafe_dollar (l : Str) (h : l.head? ≠ some '\x7b') :
    templateSafe ('$' :: l) = templateSafe l := by
  cases l with
  | nil => decide
  | cons d rest =>
    have hd : d ≠ '\x7b' := by intro hh; exact h (by simp [hh])
    simp [templateSafe, hd]

lemma escapeSpec_head (d : Char) (rest : Str) :
    ∃ x xs, escapeSpec (d :: rest) = x :: xs ∧ (x = d ∨ x = '\\') := by
  cases rest with
  | nil =>
    by_cases hd : d = '\x60'
    · exact ⟨'\\', ['\x60'], by simp [escapeSpec, hd], Or.inr rfl⟩
    · exact ⟨d, [], by simp [escapeSpec, hd], Or.inl rfl⟩
  | cons e rest' =>
    by_cases hd : d = '\x60'
    · exact ⟨'\\', '\x60' :: escapeSpec (e :: rest'), by simp [escapeSpec, hd], Or.inr rfl⟩
    · by_cases hde : d = '$' ∧ e = '\x7b'
      · exact ⟨'\\', '$' :: '\x7b' :: escapeSpec rest', by simp [escapeSpec, hd, hde],
          Or.inr rfl⟩
      · exact ⟨d, escapeSpec (e :: rest'), by simp [escapeSpec, hd, hde], Or.inl rfl⟩

lemma escapeSpec_safe : ∀ l : Str, '\\' ∉ l → templateSafe (escapeSpec l) = true := by
  intro l
  induction l using str_two_step with
  | h0 => intro _; decide
  | h1 c =>
    intro h
    have hc' : c ≠ '\\' := fun hh => h (by simp [hh])
    by_cases hc : c = '\x60'
    · subst hc; decide
    · simp [escapeSpec, templateSafe, hc, hc']
  | h2 c d rest ih1 ih2 =>
    intro h
    have hcne : c ≠ '\\' := fun hh => h (by simp [hh])
    have hdrest : '\\' ∉ d :: rest := fun hh => h (List.mem_cons_of_mem c hh)
    have hrest : '\\' ∉ rest := fun hh => hdrest (List.mem_cons_of_mem d hh)
    by_cases hc : c = '\x60'
    · rw [show escapeSpec (c :: d :: rest)
            = '\\' :: '\x60' :: escapeSpec (d :: rest) from by simp [escapeSpec, hc]]
      rw [templateSafe_escape]
      exact ih1 hdrest
    · by_cases hcd : c = '$' ∧ d = '\x7b'
      · rw [show escapeSpec (c :: d :: rest)
              = '\\' :: '$' :: '\x7b' :: escapeSpec rest from by simp [escapeSpec, hc, hcd]]
        rw [templateSafe_escape]
        rw [templateSafe_cons_benign '\x7b' _ (by decide) (by decide) (by decide)]
        exact ih2 hrest
      · rw [show escapeSpec (c :: d :: rest) = c :: escapeSpec (d :: rest) from by
            simp [escapeSpec, hc, hcd]]
        by_cases hc2 : c = '$'
        · have hd2 : d ≠ '\x7b' := fun hh => hcd ⟨hc2, hh⟩
          obtain ⟨x, xs, hx, hxor⟩ := escapeSpec_head d rest
          have hxne : (escapeSpec (d :: rest)).head? ≠ some '\x7b' := by
            rw [hx]
            simp only [List.head?_cons]
            intro hh
            simp at hh
            rcases hxor with h5 | h5
            · exact hd2 (by rw [← h5]; exact hh)
            · rw [h5] at hh; exact absurd hh (by decide)
          rw [hc2, templateSafe_dollar _ hxne]
          exact ih1 hdrest
        · rw [templateSafe_cons_benign c _ hcne hc hc2]
          exact ih1 hdrest

lemma foldl_ocr_all (pages : List PdfPage) :
    ∀ acc : Str, acc.all pyWs = true → (∀ p ∈ pages, p.ocr.all pyWs = true) →
      (pages.foldl (fun a p => a ++ p.ocr ++ ['\n']) acc).all pyWs = true := by
  induction pages with
  | nil => intro acc hacc _; simpa using hacc
  | cons p ps ih =>
    intro acc hacc hall
    rw [List.foldl_cons]
    apply ih
    · simp [List.all_append, hacc, hall p (List.mem_cons_self p ps)]
      decide
    · intro q hq
      exact hall q (List.mem_cons_of_mem p hq)

lemma ocrConcat_blank (pages : List PdfPage) (h : ∀ p ∈ pages, pyStrip p.ocr = []) :
    pyStrip (ocrConcat pages) = [] := by
  rw [pyStrip_eq_nil_iff]
  exact foldl_ocr_all pages [] rfl (fun p hp => (pyStrip_eq_nil_iff _).1 (h p hp))

/-! Claim theorems. -/

/-- C1 (amended): `create_markmap_html` replaces every backtick and every
dollar-brace sequence with its backslash-escaped form exactly once leaving all
other characters unchanged (the two sequential `str.replace` calls coincide
with a single left-to-right escaping pass), and — provided the markdown
contains no backslash — the escaped text embedded in the template literal
contains no unescaped sequence that would terminate or inject into it. -/
theorem markmap_escaping (md : Str) :
    create_markmap_html md
      = markmapHtmlBefore.data ++ escapeSpec md ++ markmapHtmlAfter.data ∧
    ('\\' ∉ md → templateSafe (escapeSpec md) = true) :=
  ⟨by rw [create_markmap_html, escComposed], fun h => escapeSpec_safe md h⟩

/-- C1 witness: concrete application of `markmap_escaping` to a
backslash-free markdown containing both a backtick and a dollar-brace. -/
theorem markmap_escaping_apply :
    ('\\' : Char) ∉ (['\x60', '$', '\x7b'] : Str) ∧
    templateSafe (escapeSpec ['\x60', '$', '\x7b']) = true :=
  ⟨by decide, (markmap_escaping ['\x60', '$', '\x7b']).2 (by decide)⟩

/-- C1 counterexample: on the three-character markdown backslash-dollar-brace
the code escapes the dollar-brace exactly once, yet the resulting embedded
text still contains a live, unescaped interpolation start (the preceding
backslash pairs with the inserted escape), so the document is not free of
injection sequences as the claim states. -/
theorem markmap_escaping_cex :
    escDollarBrace (escBacktick ['\\', '$', '\x7b']) = ['\\', '\\', '$', '\x7b'] ∧
    templateSafe (escDollarBrace (escBacktick ['\\', '$', '\x7b'])) = false := by
  decide

/-- C3: outline generation submits exactly the first 30,000 characters plus
the ellipsis marker and warns when the text exceeds the cap, and submits the
text unchanged with no warning otherwise. -/
theorem outline_truncation (gen : Str → Option Str) (text : Str) :
    (max_chars < text.length →
      (create_mindmap_markdown gen text).submitted = text.take max_chars ++ ellipsisMark ∧
      (create_mindmap_markdown gen text).truncWarned = true) ∧
    (text.length ≤ max_chars →
      (create_mindmap_markdown gen text).submitted = text ∧
      (create_mindmap_markdown gen text).truncWarned = false) := by
  have hsub : (create_mindmap_markdown gen text).submitted = truncatedText text := by
    cases hg : gen (outline_prompt (truncatedText text)) <;>
      simp [create_mindmap_markdown, hg]
  have hwarn : (create_mindmap_markdown gen text).truncWarned
      = decide (max_chars < text.length) := by
    cases hg : gen (outline_prompt (truncatedText text)) <;>
      simp [create_mindmap_markdown, hg]
  constructor
  · intro h
    refine ⟨?_, ?_⟩
    · rw [hsub, truncatedText, if_pos h]
    · rw [hwarn]; simp [h]
  · intro h
    have h' : ¬ (max_chars < text.length) := by omega
    refine ⟨?_, ?_⟩
    · rw [hsub, truncatedText, if_neg h']
    · rw [hwarn]; simp [h']

/-- C3 witness: a 30,001-character text is over the cap and triggers the
truncation warning. -/
theorem outline_truncation_apply :
    max_chars < (List.replicate 30001 'a').length ∧
    (create_mindmap_markdown noReply (List.replicate 30001 'a')).truncWarned = true := by
  have h : max_chars < (List.replicate 30001 'a').length := by
    rw [List.length_replicate]
    norm_num [max_chars]
  exact ⟨h, ((outline_truncation noReply (List.replicate 30001 'a')).1 h).2⟩

/-- C7: outline generation returns `None` exactly when the model reply is
absent or blank after stripping, and returns the stripped reply (with no
structural validation) whenever it is non-blank. -/
theorem outline_response_handling (gen : Str → Option Str) (text : Str) :
    ((create_mindmap_markdown gen text).result = none ↔
      gen (outline_prompt (truncatedText text)) = none ∨
        ∃ r, gen (outline_prompt (truncatedText text)) = some r ∧ pyStrip r = []) ∧
    ∀ r, gen (outline_prompt (truncatedText text)) = some r → pyStrip r ≠ [] →
      (create_mindmap_markdown gen text).result = some (pyStrip r) := by
  cases hg : gen (outline_prompt (truncatedText text)) with
  | none =>
    constructor
    · simp [create_mindmap_markdown, hg]
    · intro r hr
      exact absurd hr (by simp)
  | some r0 =>
    constructor
    · by_cases hb : pyStrip r0 = []
      · have hres : (create_mindmap_markdown gen text).result = none := by
          simp [create_mindmap_markdown, hg, hb]
        constructor
        · intro _
          exact Or.inr ⟨r0, rfl, hb⟩
        · intro _
          exact hres
      · have hres : (create_mindmap_markdown gen text).result = some (pyStrip r0) := by
          simp [create_mindmap_markdown, hg, hb]
        constructor
        · intro hh
          rw [hres] at hh
          exact absurd hh (by simp)
        · rintro (hh | ⟨r, hr, hstrip⟩)
          · exact absurd hh (by simp)
          · have hrr : r0 = r := by injection hr
            rw [← hrr] at hstrip
            exact absurd hstrip hb
    · intro r hr hne
      have hrr : r0 = r := by injection hr
      subst hrr
      simp [create_mindmap_markdown, hg, hne]

/-- C7 witness: with a constant non-blank reply the outline generator
succeeds and returns the stripped reply. -/
theorem outline_response_handling_apply :
    pyStrip ['m', 'd'] ≠ [] ∧
    (create_mindmap_markdown (constGen (some ['m', 'd'])) []).result
      = some (pyStrip ['m', 'd']) :=
  ⟨by decide,
    (outline_response_handling (constGen (some ['m', 'd'])) []).2 ['m', 'd'] rfl (by decide)⟩

/-- C2: when the joined embedded text is blank after stripping and every
page's OCR output is blank after stripping, extraction fails with `None`, and
in that case `main` invokes neither outline generation nor question
generation. -/
theorem extraction_whitespace_failure (pages : List PdfPage) (apiKeyPresent : Bool)
    (og : Str → Option Str) (clicked : Bool)
    (h1 : pyStrip (joinedPageText pages) = [])
    (h2 : ∀ p ∈ pages, pyStrip p.ocr = []) :
    (extract_text_from_pdf false false pages).result = none ∧
    (main_run apiKeyPresent (some pages) false false og clicked).outlineCalled = false ∧
    (main_run apiKeyPresent (some pages) false false og clicked).questionsCalled = false := by
  have ho : pyStrip (ocrConcat pages) = [] := ocrConcat_blank pages h2
  have hex : (extract_text_from_pdf false false pages).result = none := by
    simp [extract_text_from_pdf, h1, ho]
  refine ⟨hex, ?_, ?_⟩ <;> cases apiKeyPresent <;>
    simp [main_run, configure_genai, hex]

/-- C2 witness: a one-page document whose embedded text is a single space and
whose OCR output is a single newline fails extraction and triggers no
generation. -/
theorem extraction_whitespace_failure_apply :
    pyStrip (joinedPageText [⟨[' '], ['\n']⟩]) = [] ∧
    (main_run true (some [⟨[' '], ['\n']⟩]) false false noReply true).outlineCalled
      = false ∧
    (main_run true (some [⟨[' '], ['\n']⟩]) false false noReply true).questionsCalled
      = false := by
  refine ⟨by decide, ?_, ?_⟩
  · exact (extraction_whitespace_failure [⟨[' '], ['\n']⟩] true noReply true
      (by decide) (by decide)).2.1
  · exact (extraction_whitespace_failure [⟨[' '], ['\n']⟩] true noReply true
      (by decide) (by decide)).2.2

/-- C4 (amended): when the API credential is absent, `main` returns at
startup — before the uploader is rendered — so generation is unavailable and
extraction is not invoked either; no stage of the pipeline runs. -/
theorem main_requires_api_key (uploaded : Option (List PdfPage))
    (readRaises parseRaises : Bool) (og : Str → Option Str) (clicked : Bool) :
    main_run false uploaded readRaises parseRaises og clicked
      = ⟨false, none, false, false⟩ := by
  simp [main_run, configure_genai]

/-- C4 counterexample: with the credential absent, `main` yields no extraction
result even for a PDF from which `extract_text_from_pdf` would extract text,
refuting the claim that extraction still works without the credential. -/
theorem main_requires_api_key_cex :
    (main_run false (some [⟨['h', 'i'], []⟩]) false false noReply true).extracted
      = none ∧
    (extract_text_from_pdf false false [⟨['h', 'i'], []⟩]).result = some ['h', 'i'] := by
  constructor
  · decide
  · decide

/-- C5: on the exit path where reading the uploaded bytes raises after the
temporary file was created, `temp_file_path` is unbound, the `finally` block
raises `NameError`, and the temporary file is not deleted — the code, at this
concrete input, violates the guaranteed-deletion claim. -/
theorem temp_file_leak_on_read_error :
    (extract_text_from_pdf true false [⟨['a'], []⟩]).tempFileDeleted = false ∧
    (extract_text_from_pdf true false [⟨['a'], []⟩]).raised = true := by
  decide

/-- C8 (amended): for every PDF whose newline-join of truthy page texts is
non-blank after stripping, extraction returns that join stripped of
surrounding whitespace and OCR is not invoked. -/
theorem extraction_embedded_path (pages : List PdfPage)
    (h : pyStrip (joinedPageText pages) ≠ []) :
    (extract_text_from_pdf false false pages).result
      = some (pyStrip (joinedPageText pages)) ∧
    (extract_text_from_pdf false false pages).ocrInvoked = false := by
  constructor <;> simp [extract_text_from_pdf, h]

/-- C8 witness: a single page with embedded text yields that text without
OCR. -/
theorem extraction_embedded_path_apply :
    pyStrip (joinedPageText [⟨['h', 'i'], ['x']⟩]) ≠ [] ∧
    (extract_text_from_pdf false false [⟨['h', 'i'], ['x']⟩]).result = some ['h', 'i'] ∧
    (extract_text_from_pdf false false [⟨['h', 'i'], ['x']⟩]).ocrInvoked = false := by
  have h := extraction_embedded_path [⟨['h', 'i'], ['x']⟩] (by decide)
  refine ⟨by decide, ?_, h.2⟩
  rw [h.1]
  decide

/-- C8 counterexample: a page whose embedded text is a single space counts as
"containing embedded text" for the generator filter, yet the joined text is
blank after stripping, so the code invokes OCR and returns the stripped OCR
text instead of the embedded join — refuting both the no-OCR part and the
returned-value part of the claim as stated. -/
theorem extraction_embedded_path_cex :
    (extract_text_from_pdf false false [⟨[' '], ['o', 'c', 'r']⟩]).ocrInvoked = true ∧
    (extract_text_from_pdf false false [⟨[' '], ['o', 'c', 'r']⟩]).result
      = some ['o', 'c', 'r'] ∧
    joinedPageText [⟨[' '], ['o', 'c', 'r']⟩] = [' '] := by
  decide

/-- C9: whenever extraction returns a result, the result is a non-empty fixed
point of whitespace stripping (no leading or trailing whitespace), on both
the embedded-text path and the OCR path. -/
theorem extraction_result_trimmed (readRaises parseRaises : Bool)
    (pages : List PdfPage) (t : Str)
    (h : (extract_text_from_pdf readRaises parseRaises pages).result = some t) :
    t ≠ [] ∧ pyStrip t = t := by
  cases readRaises with
  | true => simp [extract_text_from_pdf] at h
  | false =>
    cases parseRaises with
    | true => simp [extract_text_from_pdf] at h
    | false =>
      by_cases h1 : pyStrip (joinedPageText pages) = []
      · by_cases h2 : pyStrip (ocrConcat pages) = []
        · simp [extract_text_from_pdf, h1, h2] at h
        · simp [extract_text_from_pdf, h1, h2] at h
          constructor
          · rw [← h]; exact h2
          · rw [← h, pyStrip_idem]
      · simp [extract_text_from_pdf, h1] at h
        constructor
        · rw [← h]; exact h1
        · rw [← h, pyStrip_idem]

/-- C9 witness: extraction of a page whose text is space-a returns the
stripped, non-empty result. -/
theorem extraction_result_trimmed_apply :
    (extract_text_from_pdf false false [⟨[' ', 'a'], []⟩]).result = some ['a'] ∧
    (['a'] : Str) ≠ [] ∧ pyStrip ['a'] = ['a'] := by
  refine ⟨by decide, ?_, ?_⟩
  · exact (extraction_result_trimmed false false [⟨[' ', 'a'], []⟩] ['a'] (by decide)).1
  · exact (extraction_result_trimmed false false [⟨[' ', 'a'], []⟩] ['a'] (by decide)).2

/-- C6 (amended): question generation first strips the reply of surrounding
whitespace and then splits it at every newline with no filtering — every line
of the stripped reply, including interior blank lines, becomes one entry in
order; in particular the example reply yields exactly the two entries
`1. Why?` and `2. How?`. -/
theorem questions_split_trimmed :
    (∀ (gen : Str → Option Str) (text r : Str),
        gen (questions_prompt text) = some r → pyStrip r ≠ [] →
        generate_questions_from_text gen text = some (splitNl (pyStrip r))) ∧
    generate_questions_from_text (constGen (some exampleReply)) []
      = some [['1', '.', ' ', 'W', 'h', 'y', '?'], ['2', '.', ' ', 'H', 'o', 'w', '?']] := by
  constructor
  · intro gen text r hr hne
    simp [generate_questions_from_text, hr, hne]
  · decide

/-- C6 witness: concrete application of `questions_split_trimmed` to the
example reply. -/
theorem questions_split_trimmed_apply :
    pyStrip exampleReply ≠ [] ∧
    generate_questions_from_text (constGen (some exampleReply)) []
      = some (splitNl (pyStrip exampleReply)) :=
  ⟨by decide,
    questions_split_trimmed.1 (constGen (some exampleReply)) [] exampleReply rfl (by decide)⟩

/-- C6 counterexample: on the reply newline-A, the code yields the single
entry `A`, not the raw line-boundary split (which has a leading empty line),
so not every line of the raw reply becomes a list entry. -/
theorem questions_split_raw_cex :
    generate_questions_from_text (constGen (some ['\n', 'A'])) [] = some [['A']] ∧
    splitNl ['\n', 'A'] = [[], ['A']] ∧
    generate_questions_from_text (constGen (some ['\n', 'A'])) []
      ≠ some (splitNl ['\n', 'A']) := by
  decide

/-- C10: whenever question generation returns a list, no entry contains a
newline, the list is non-empty, and the first and last entries each contain a
non-whitespace character (the reply is stripped before being split). -/
theorem questions_list_invariants (gen : Str → Option Str) (text : Str) (qs : List Str)
    (h : generate_questions_from_text gen text = some qs) :
    qs ≠ [] ∧ (∀ e ∈ qs, '\n' ∉ e) ∧
    (∃ e, qs.head? = some e ∧ e.any (fun c => !pyWs c) = true) ∧
    (∃ e, qs.getLast? = some e ∧ e.any (fun c => !pyWs c) = true) := by
  cases hg : gen (questions_prompt text) with
  | none =>
    rw [generate_questions_from_text, hg] at h
    exact absurd h (by simp)
  | some r =>
    by_cases hb : pyStrip r = []
    · rw [generate_questions_from_text, hg] at h
      simp [hb] at h
    · have hqs : qs = splitNl (pyStrip r) := by
        rw [generate_questions_from_text, hg] at h
        simp [hb] at h
        exact h.symm
      refine ⟨?_, ?_, ?_, ?_⟩
      · rw [hqs]; exact splitNl_ne_nil _
      · rw [hqs]; exact splitNl_no_newline _
      · obtain ⟨c, hc⟩ : ∃ c, (pyStrip r).head? = some c := by
          cases hp : pyStrip r with
          | nil => exact absurd hp hb
          | cons x xs => exact ⟨x, rfl⟩
        have hcw : pyWs c = false := pyStrip_head? r c hc
        have hcn : c ≠ '\n' := by
          intro hh
          rw [hh] at hcw
          exact absurd hcw (by decide)
        obtain ⟨e, es, he, hce⟩ := splitNl_head (pyStrip r) c hc hcn
        refine ⟨e, ?_, ?_⟩
        · rw [hqs, he]; rfl
        · rw [List.any_eq_true]
          exact ⟨c, hce, by simp [hcw]⟩
      · obtain ⟨c, hc⟩ := getLast?_isSome_of_ne_nil (pyStrip r) hb
        have hcw : pyWs c = false := pyStrip_getLast? r c hc
        have hcn : c ≠ '\n' := by
          intro hh
          rw [hh] at hcw
          exact absurd hcw (by decide)
        obtain ⟨e, he, hce⟩ := splitNl_getLast (pyStrip r) c hc hcn
        refine ⟨e, ?_, ?_⟩
        · rw [hqs]; exact he
        · rw [List.any_eq_true]
          exact ⟨c, hce, by simp [hcw]⟩

/-- C10 witness: concrete application of `questions_list_invariants` to a
two-line reply. -/
theorem questions_list_invariants_apply :
    generate_questions_from_text (constGen (some ['Q', '\n', 'R'])) []
      = some [['Q'], ['R']] ∧
    ([['Q'], ['R']] : List Str) ≠ [] ∧
    (∀ e ∈ ([['Q'], ['R']] : List Str), '\n' ∉ e) := by
  have h : generate_questions_from_text (constGen (some ['Q', '\n', 'R'])) []
      = some [['Q'], ['R']] := by decide
  have h2 := questions_list_invariants (constGen (some ['Q', '\n', 'R'])) [] [['Q'], ['R']] h
  exact ⟨h, h2.1, h2.2.1⟩
